import Mathlib

/-!
# go-socket.io `server.go`: namespace registry, registration API and accept loop

A shallow embedding of `src/server.go`.

* Go pointers `*namespaceHandler` are addresses into an explicit heap (`none` is `nil`);
  `newHandler()` allocates the next free address, so pointer equality is object identity.
* The Go map `map[string]*namespaceHandler` is a finite map (`AList`) from strings to pointers.
* Func values are compared by identity and are represented by identifiers; invoking one is
  recorded in a trace.
* `Set` and `Get` each run entirely under the registry mutex, so each is one atomic step.
  Sequential claims use the atomic functions directly; the interleaving model
  (`getNamespaceStep`, `interleave`) schedules these atomic steps of two goroutines; the model
  in the namespace `Locked` keeps the `sync.RWMutex` as explicit state.
-/

namespace GoSocket

/-! ## Definitions -/

/-- Go value of type `*namespaceHandler`: `none` is `nil`, `some a` points to heap cell `a`. -/
abbrev HandlerPtr := Option Nat

/-- Identity of a Go func value (a registered callback). -/
abbrev Callback := Nat

/-- A non-nil Go `error` value. A Go variable of type `error` is an `Option Error`. -/
abbrev Error := Nat

/-- A raw transport connection (`engineio.Conn`), identified by a number. -/
abbrev engineioConn := Nat

/-- Modelled from the spec: the declaration of `namespaceHandler` is not in `server.go`
(only the field `onError` is visible, at `serveConn`). Per the data model it holds the optional
callbacks `onConnect`, `onDisconnect`, `onError` and a map from event name to callback. -/
structure namespaceHandler where
  onConnect : Option Callback
  onDisconnect : Option Callback
  onError : Option Callback
  events : AList (fun _ : String => Callback)

/-- The Go heap fragment holding the handler objects: cell `a` is the object at address `a`. -/
abbrev Heap := List namespaceHandler

/-- Modelled from the spec: `newHandler()` is not in `server.go`. It returns a pointer to a
freshly allocated handler whose callback fields are all unset and whose event map is empty. -/
def newHandler (heap : Heap) : HandlerPtr × Heap :=
  (some heap.length, heap ++ [{ onConnect := none, onDisconnect := none, onError := none, events := ∅ }])

/-- The registry `namespaceHandlers` (lines 10-13); the mutex is kept in `Locked`. -/
structure namespaceHandlers where
  handlers : AList (fun _ : String => HandlerPtr)

/-- Constructor `newNamespaceHandlers` (lines 15-19): an empty map. -/
def newNamespaceHandlers : namespaceHandlers :=
  { handlers := ∅ }

/-- Method `Set` (lines 21-25): `h.handlers[namespace] = handler`. -/
def namespaceHandlers.Set (h : namespaceHandlers) (nsp : String) (handler : HandlerPtr) :
    namespaceHandlers :=
  { handlers := h.handlers.insert nsp handler }

/-- Method `Get` (lines 27-32): `handler, ok := h.handlers[nsp]`; a miss yields `(nil, false)`. -/
def namespaceHandlers.Get (h : namespaceHandlers) (nsp : String) : HandlerPtr × Bool :=
  match h.handlers.lookup nsp with
  | some handler => (handler, true)
  | none => (none, false)

/-- The number of entries of the registry map. -/
def namespaceHandlers.size (h : namespaceHandlers) : Nat :=
  h.handlers.keys.length

/-- The `Server` (lines 35-38): the registry together with the heap its pointers live in.
The transport `eio` is passed to `Serve` as the stream of its `Accept` results. -/
structure Server where
  handlers : namespaceHandlers
  heap : Heap

/-- The server returned by a successful `NewServer` (lines 46-49): an empty registry. -/
def newServer : Server :=
  { handlers := newNamespaceHandlers, heap := [] }

/-- The name rewriting at the head of `getNamespace` (lines 110-112). -/
def normalizeNsp (nsp : String) : String :=
  if nsp = "/" then "" else nsp

/-- Method `getNamespace` (lines 109-120): returns the handler pointer and the new state. -/
def Server.getNamespace (s : Server) (nsp : String) : HandlerPtr × Server :=
  let nsp := if nsp = "/" then "" else nsp
  let (ret, ok) := s.handlers.Get nsp
  if ok then
    (ret, s)
  else
    let (handler, heap) := newHandler s.heap
    (handler, { handlers := s.handlers.Set nsp handler, heap := heap })

/-- Modelled from the spec: the setter `(*namespaceHandler).OnConnect` is not in `server.go`.
It stores `f` in the field `onConnect`, overwriting. `none` is the nil-dereference panic. -/
def namespaceHandler.OnConnect (heap : Heap) (h : HandlerPtr) (f : Option Callback) :
    Option Heap :=
  match h with
  | none => none
  | some a =>
    match heap[a]? with
    | none => none
    | some obj => some (heap.set a { obj with onConnect := f })

/-- Modelled from the spec: the setter `(*namespaceHandler).OnDisconnect` is not in `server.go`.
It stores `f` in the field `onDisconnect`, overwriting. -/
def namespaceHandler.OnDisconnect (heap : Heap) (h : HandlerPtr) (f : Option Callback) :
    Option Heap :=
  match h with
  | none => none
  | some a =>
    match heap[a]? with
    | none => none
    | some obj => some (heap.set a { obj with onDisconnect := f })

/-- Modelled from the spec: the setter `(*namespaceHandler).OnError` is not in `server.go`.
It stores `f` in the field `onError`, overwriting. -/
def namespaceHandler.OnError (heap : Heap) (h : HandlerPtr) (f : Option Callback) :
    Option Heap :=
  match h with
  | none => none
  | some a =>
    match heap[a]? with
    | none => none
    | some obj => some (heap.set a { obj with onError := f })

/-- Modelled from the spec: the setter `(*namespaceHandler).OnEvent` is not in `server.go`.
It stores the callback under the event name in `events`, overwriting. -/
def namespaceHandler.OnEvent (heap : Heap) (h : HandlerPtr) (event : String) (f : Callback) :
    Option Heap :=
  match h with
  | none => none
  | some a =>
    match heap[a]? with
    | none => none
    | some obj => some (heap.set a { obj with events := obj.events.insert event f })

/-- Method `OnConnect` (lines 63-66); `none` is a panic. -/
def Server.OnConnect (s : Server) (nsp : String) (f : Option Callback) : Option Server :=
  let (h, s1) := s.getNamespace nsp
  (namespaceHandler.OnConnect s1.heap h f).map fun heap => { s1 with heap := heap }

/-- Method `OnDisconnect` (lines 70-73); `none` is a panic. -/
def Server.OnDisconnect (s : Server) (nsp : String) (f : Option Callback) : Option Server :=
  let (h, s1) := s.getNamespace nsp
  (namespaceHandler.OnDisconnect s1.heap h f).map fun heap => { s1 with heap := heap }

/-- Method `OnError` (lines 76-79); `none` is a panic. -/
def Server.OnError (s : Server) (nsp : String) (f : Option Callback) : Option Server :=
  let (h, s1) := s.getNamespace nsp
  (namespaceHandler.OnError s1.heap h f).map fun heap => { s1 with heap := heap }

/-- Method `OnEvent` (lines 82-85); `none` is a panic. -/
def Server.OnEvent (s : Server) (nsp event : String) (f : Callback) : Option Server :=
  let (h, s1) := s.getNamespace nsp
  (namespaceHandler.OnEvent s1.heap h event f).map fun heap => { s1 with heap := heap }

/-- The three lifecycle kinds that have a registration method. -/
inductive Lifecycle where
  | connect
  | disconnect
  | error
  deriving DecidableEq, Repr

/-- Dispatch to `OnConnect`, `OnDisconnect` or `OnError`. -/
def Server.register (s : Server) (k : Lifecycle) (nsp : String) (f : Option Callback) :
    Option Server :=
  match k with
  | .connect => s.OnConnect nsp f
  | .disconnect => s.OnDisconnect nsp f
  | .error => s.OnError nsp f

/-- Reading the lifecycle field `k` of the object a pointer refers to (`none`: unset, nil
pointer, or no such object). -/
def Server.callbackOf (s : Server) (k : Lifecycle) (h : HandlerPtr) : Option Callback :=
  match h with
  | none => none
  | some a =>
    match s.heap[a]? with
    | none => none
    | some obj =>
      match k with
      | .connect => obj.onConnect
      | .disconnect => obj.onDisconnect
      | .error => obj.onError

/-- Every pointer stored in the registry is non-nil and refers to an allocated handler. -/
def Server.WF (s : Server) : Prop :=
  ∀ nsp p, s.handlers.handlers.lookup nsp = some p → ∃ a, p = some a ∧ a < s.heap.length

/-- Method `serveConn` (lines 98-107). The binder `newConn` is not in `server.go` and is a
parameter: it yields the Go `error` of binding `c` (`none` is `nil`). The result is the list of
callback invocations made by `serveConn` itself, in order, each with its argument. -/
def Server.serveConn (newConn : engineioConn → Server → Option Error) (s : Server)
    (c : engineioConn) : List (Callback × Error) :=
  match newConn c s with
  | some err =>
    let (root, _) := s.handlers.Get ""
    match root with
    | none => []
    | some a =>
      match s.heap[a]? with
      | none => []
      | some obj =>
        match obj.onError with
        | none => []
        | some f => [(f, err)]
  | none => []

/-- What `Serve` has done after a bounded number of loop iterations. -/
structure ServeOutcome where
  /-- The value returned (`some err`, a Go `error`), or `none` while the loop still runs. -/
  ret : Option (Option Error)
  /-- The connections handed to a `go s.serveConn(conn)` worker, in order. -/
  spawned : List engineioConn
  /-- The callback invocations made by those workers (each worker run at its spawn). -/
  invoked : List (Callback × Error)
  deriving DecidableEq, Repr

/-- The loop of `Serve` (lines 88-96) from the `i`-th call of `Accept`, for at most `fuel`
iterations. `accept i` is the pair `(conn, err)` returned by the `i`-th call of `s.eio.Accept()`. -/
def Server.serveLoop (s : Server) (newConn : engineioConn → Server → Option Error)
    (accept : Nat → engineioConn × Option Error) : Nat → Nat → ServeOutcome
  | 0, _ => { ret := none, spawned := [], invoked := [] }
  | fuel + 1, i =>
    let (conn, err) := accept i
    match err with
    | some e => { ret := some (some e), spawned := [], invoked := [] }
    | none =>
      let rest := s.serveLoop newConn accept fuel (i + 1)
      { ret := rest.ret
        spawned := conn :: rest.spawned
        invoked := s.serveConn newConn conn ++ rest.invoked }

/-- Method `Serve` (lines 88-96), run for at most `fuel` iterations of its loop. -/
def Server.Serve (s : Server) (newConn : engineioConn → Server → Option Error)
    (accept : Nat → engineioConn × Option Error) (fuel : Nat) : ServeOutcome :=
  s.serveLoop newConn accept fuel 0

/-! ### Sequences of registry operations -/

/-- An operation on the registry of a server. -/
inductive RegistryOp where
  | set (nsp : String) (handler : HandlerPtr)
  | getNamespace (nsp : String)
  deriving DecidableEq, Repr

/-- Run one operation. -/
def Server.apply (s : Server) : RegistryOp → Server
  | .set nsp handler => { s with handlers := s.handlers.Set nsp handler }
  | .getNamespace nsp => (s.getNamespace nsp).2

/-- Run a sequence of operations, first to last. -/
def Server.applyAll (s : Server) (ops : List RegistryOp) : Server :=
  ops.foldl Server.apply s

/-- The map key an operation writes to when it stores a handler. -/
def RegistryOp.key : RegistryOp → String
  | .set nsp _ => nsp
  | .getNamespace nsp => if nsp = "/" then "" else nsp

/-- The namespace name an operation was called with. -/
def RegistryOp.name : RegistryOp → String
  | .set nsp _ => nsp
  | .getNamespace nsp => nsp

/-- No two keys of the registry are rewritten to the same name by `getNamespace`: one entry per
normalized namespace name. -/
def namespaceHandlers.OnePerNormalizedName (h : namespaceHandlers) : Prop :=
  ∀ k1 ∈ h.handlers.keys, ∀ k2 ∈ h.handlers.keys, normalizeNsp k1 = normalizeNsp k2 → k1 = k2

/-! ### Two goroutines inside `getNamespace` -/

/-- Where a goroutine stands inside `getNamespace`. -/
inductive GetNamespacePC where
  /-- Called with `nsp`, before line 110. -/
  | start (nsp : String)
  /-- After `Get` returned `ok = false` for the rewritten name (line 113), before line 117. -/
  | missed (nsp : String)
  /-- Returned `ret`. -/
  | done (ret : HandlerPtr)
  deriving DecidableEq, Repr

/-- One atomic step of a goroutine running `getNamespace`: first the locked `Get` (lines
110-116), then `newHandler` and the locked `Set` (lines 117-119). -/
def Server.getNamespaceStep (s : Server) : GetNamespacePC → GetNamespacePC × Server
  | .start nsp =>
    let nsp := if nsp = "/" then "" else nsp
    let (ret, ok) := s.handlers.Get nsp
    if ok then (.done ret, s) else (.missed nsp, s)
  | .missed nsp =>
    let (handler, heap) := newHandler s.heap
    (.done handler, { handlers := s.handlers.Set nsp handler, heap := heap })
  | .done ret => (.done ret, s)

/-- Run two goroutines under a schedule: `false` steps the first, `true` the second. -/
def Server.interleave (s : Server) (a b : GetNamespacePC) :
    List Bool → GetNamespacePC × GetNamespacePC × Server
  | [] => (a, b, s)
  | false :: sched =>
    let (a1, s1) := s.getNamespaceStep a
    s1.interleave a1 b sched
  | true :: sched =>
    let (b1, s1) := s.getNamespaceStep b
    s1.interleave a b1 sched

/-! ### The registry with its mutex as explicit state -/

/-- The locks of a `sync.RWMutex` that are currently held. -/
structure RWMutex where
  /-- Number of read locks held. -/
  readers : Nat
  /-- Whether the write lock is held. -/
  writer : Bool
  deriving DecidableEq, Repr

/-- The mutex with no lock held. -/
def RWMutex.free : RWMutex :=
  { readers := 0, writer := false }

/-- Why a run of one goroutine cannot continue. -/
inductive Fault where
  /-- Waiting for a lock that only the waiting goroutine itself could release. -/
  | blocked
  /-- Unlocking a mutex that is not locked (fatal in Go). -/
  | unlockOfUnlocked
  /-- Storing through a nil pointer (panic). -/
  | nilDeref
  deriving DecidableEq, Repr

/-- Go `RWMutex.Lock`: needs no reader and no writer. -/
def RWMutex.Lock (m : RWMutex) : Except Fault RWMutex :=
  if m.writer = true ∨ m.readers ≠ 0 then .error .blocked else .ok { m with writer := true }

/-- Go `RWMutex.Unlock`. -/
def RWMutex.Unlock (m : RWMutex) : Except Fault RWMutex :=
  if m.writer = true then .ok { m with writer := false } else .error .unlockOfUnlocked

/-- Go `RWMutex.RLock`: needs no writer. -/
def RWMutex.RLock (m : RWMutex) : Except Fault RWMutex :=
  if m.writer = true then .error .blocked else .ok { m with readers := m.readers + 1 }

/-- Go `RWMutex.RUnlock`. -/
def RWMutex.RUnlock (m : RWMutex) : Except Fault RWMutex :=
  if m.readers = 0 then .error .unlockOfUnlocked else .ok { m with readers := m.readers - 1 }

namespace Locked

/-- The registry `namespaceHandlers` (lines 10-13) with its field `mu`. -/
structure namespaceHandlers where
  mu : RWMutex
  handlers : AList (fun _ : String => HandlerPtr)

/-- Method `Set` (lines 21-25): lock, store, deferred unlock. -/
def namespaceHandlers.Set (h : namespaceHandlers) (nsp : String) (handler : HandlerPtr) :
    Except Fault namespaceHandlers := do
  let mu1 ← h.mu.Lock
  let handlers := h.handlers.insert nsp handler
  let mu2 ← mu1.Unlock
  pure { mu := mu2, handlers := handlers }

/-- Method `Get` (lines 27-32): read-lock, look up, deferred read-unlock. -/
def namespaceHandlers.Get (h : namespaceHandlers) (nsp : String) :
    Except Fault ((HandlerPtr × Bool) × namespaceHandlers) := do
  let mu1 ← h.mu.RLock
  let r : HandlerPtr × Bool :=
    match h.handlers.lookup nsp with
    | some handler => (handler, true)
    | none => (none, false)
  let mu2 ← mu1.RUnlock
  pure (r, { h with mu := mu2 })

/-- The `Server` (lines 35-38) over the registry with its mutex. -/
structure Server where
  handlers : namespaceHandlers
  heap : Heap

/-- Forget the mutex. -/
def Server.erase (s : Server) : GoSocket.Server :=
  { handlers := { handlers := s.handlers.handlers }, heap := s.heap }

/-- Method `getNamespace` (lines 109-120). -/
def Server.getNamespace (s : Server) (nsp : String) : Except Fault (HandlerPtr × Server) := do
  let nsp := if nsp = "/" then "" else nsp
  let ((ret, ok), hs) ← s.handlers.Get nsp
  if ok then
    pure (ret, { s with handlers := hs })
  else
    let (handler, heap) := newHandler s.heap
    let hs1 ← hs.Set nsp handler
    pure (handler, { handlers := hs1, heap := heap })

/-- A call of one of the registration methods of the server. -/
inductive Registration where
  | onConnect (nsp : String) (f : Option Callback)
  | onDisconnect (nsp : String) (f : Option Callback)
  | onError (nsp : String) (f : Option Callback)
  | onEvent (nsp event : String) (f : Callback)
  deriving DecidableEq, Repr

/-- Lift the nil-dereference panic of a setter. -/
def storeField (s : Server) (r : Option Heap) : Except Fault Server :=
  match r with
  | some heap => .ok { s with heap := heap }
  | none => .error .nilDeref

/-- The methods `OnConnect`, `OnDisconnect`, `OnError`, `OnEvent` (lines 63-85). -/
def Server.register (s : Server) : Registration → Except Fault Server
  | .onConnect nsp f => do
    let (h, s1) ← s.getNamespace nsp
    storeField s1 (namespaceHandler.OnConnect s1.heap h f)
  | .onDisconnect nsp f => do
    let (h, s1) ← s.getNamespace nsp
    storeField s1 (namespaceHandler.OnDisconnect s1.heap h f)
  | .onError nsp f => do
    let (h, s1) ← s.getNamespace nsp
    storeField s1 (namespaceHandler.OnError s1.heap h f)
  | .onEvent nsp event f => do
    let (h, s1) ← s.getNamespace nsp
    storeField s1 (namespaceHandler.OnEvent s1.heap h event f)

/-- The body of a callback that calls registration methods, one after the other. -/
def Server.runCallback (s : Server) : List Registration → Except Fault Server
  | [] => .ok s
  | r :: rest =>
    match s.register r with
    | .ok s1 => s1.runCallback rest
    | .error e => .error e

/-- A callback invocation together with the mutex state at the moment of the call. -/
structure Invocation where
  callback : Callback
  arg : Error
  mu : RWMutex
  deriving DecidableEq, Repr

/-- Method `serveConn` (lines 98-107). `body f` lists the registration calls that the callback
`f` makes when it runs. The result is the log of invocations and the final state or fault. -/
def Server.serveConn (body : Callback → List Registration)
    (newConn : engineioConn → Server → Option Error) (s : Server) (c : engineioConn) :
    List Invocation × Except Fault Server :=
  match newConn c s with
  | some err =>
    match s.handlers.Get "" with
    | .error e => ([], .error e)
    | .ok ((root, _), hs) =>
      let s1 : Server := { s with handlers := hs }
      match root with
      | none => ([], .ok s1)
      | some a =>
        match s1.heap[a]? with
        | none => ([], .ok s1)
        | some obj =>
          match obj.onError with
          | none => ([], .ok s1)
          | some f => ([{ callback := f, arg := err, mu := s1.handlers.mu }], s1.runCallback (body f))
  | none => ([], .ok s)

/-- A variant of `serveConn` that is NOT the source: it invokes the callback while the read lock
of the lookup is still held. It only serves to show that the model detects such a deadlock. -/
def Server.serveConnHoldingLock (body : Callback → List Registration)
    (newConn : engineioConn → Server → Option Error) (s : Server) (c : engineioConn) :
    List Invocation × Except Fault Server :=
  match newConn c s with
  | some err =>
    match s.handlers.mu.RLock with
    | .error e => ([], .error e)
    | .ok mu1 =>
      let s1 : Server := { s with handlers := { s.handlers with mu := mu1 } }
      match s.handlers.handlers.lookup "" with
      | some (some a) =>
        match s1.heap[a]? with
        | none => ([], .ok s1)
        | some obj =>
          match obj.onError with
          | none => ([], .ok s1)
          | some f => ([{ callback := f, arg := err, mu := s1.handlers.mu }], s1.runCallback (body f))
      | _ => ([], .ok s1)
  | none => ([], .ok s)

end Locked

/-! ## Theorems -/

/-! ### The registry map -/

theorem Get_eq_of_lookup_some {h : namespaceHandlers} {nsp : String} {p : HandlerPtr}
    (hl : h.handlers.lookup nsp = some p) : h.Get nsp = (p, true) := by
  simp [namespaceHandlers.Get, hl]

theorem Get_eq_of_lookup_none {h : namespaceHandlers} {nsp : String}
    (hl : h.handlers.lookup nsp = none) : h.Get nsp = (none, false) := by
  simp [namespaceHandlers.Get, hl]

theorem Get_found_iff (h : namespaceHandlers) (nsp : String) :
    (h.Get nsp).2 = true ↔ nsp ∈ h.handlers.keys := by
  rw [← AList.mem_keys, ← AList.lookup_isSome]
  unfold namespaceHandlers.Get
  cases h.handlers.lookup nsp <;> simp

theorem Get_after_Set (h : namespaceHandlers) (nsp : String) (p : HandlerPtr) :
    (h.Set nsp p).Get nsp = (p, true) :=
  Get_eq_of_lookup_some (by simp [namespaceHandlers.Set])

theorem Get_after_Set_other (h : namespaceHandlers) {nsp other : String} (p : HandlerPtr)
    (hne : other ≠ nsp) : (h.Set nsp p).Get other = h.Get other := by
  simp [namespaceHandlers.Get, namespaceHandlers.Set, AList.lookup_insert_ne hne]

theorem mem_keys_Set (h : namespaceHandlers) (nsp k : String) (p : HandlerPtr) :
    k ∈ (h.Set nsp p).handlers.keys ↔ k = nsp ∨ k ∈ h.handlers.keys := by
  have := @AList.mem_insert _ _ _ k nsp p h.handlers
  simpa [namespaceHandlers.Set, AList.mem_keys] using this

theorem size_Set_of_mem (h : namespaceHandlers) {nsp : String} (p : HandlerPtr)
    (hk : nsp ∈ h.handlers.keys) : (h.Set nsp p).size = h.size := by
  have hpos : 0 < h.handlers.keys.length := List.length_pos_of_mem hk
  simp only [namespaceHandlers.size, namespaceHandlers.Set, AList.keys_insert, List.length_cons,
    List.length_erase_of_mem hk]
  omega

theorem size_Set_of_not_mem (h : namespaceHandlers) {nsp : String} (p : HandlerPtr)
    (hk : nsp ∉ h.handlers.keys) : (h.Set nsp p).size = h.size + 1 := by
  simp only [namespaceHandlers.size, namespaceHandlers.Set, AList.keys_insert, List.length_cons,
    List.erase_of_not_mem hk]

/-! ### `getNamespace` -/

theorem getNamespace_of_found {s : Server} {nsp : String} {p : HandlerPtr}
    (hl : s.handlers.handlers.lookup (normalizeNsp nsp) = some p) :
    s.getNamespace nsp = (p, s) := by
  unfold normalizeNsp at hl
  simp [Server.getNamespace, Get_eq_of_lookup_some hl]

theorem getNamespace_of_missing {s : Server} {nsp : String}
    (hl : s.handlers.handlers.lookup (normalizeNsp nsp) = none) :
    s.getNamespace nsp =
      ((newHandler s.heap).1,
        { handlers := s.handlers.Set (normalizeNsp nsp) (newHandler s.heap).1,
          heap := (newHandler s.heap).2 }) := by
  unfold normalizeNsp at hl
  simp [Server.getNamespace, Get_eq_of_lookup_none hl, normalizeNsp]

theorem getNamespace_lookup (s : Server) (nsp : String) :
    (s.getNamespace nsp).2.handlers.handlers.lookup (normalizeNsp nsp)
      = some (s.getNamespace nsp).1 := by
  cases hl : s.handlers.handlers.lookup (normalizeNsp nsp) with
  | some p => rw [getNamespace_of_found hl]; exact hl
  | none => rw [getNamespace_of_missing hl]; simp [namespaceHandlers.Set]

theorem getNamespace_again (s : Server) {nsp other : String}
    (hn : normalizeNsp other = normalizeNsp nsp) :
    (s.getNamespace nsp).2.getNamespace other = s.getNamespace nsp := by
  have h := getNamespace_lookup s nsp
  rw [← hn] at h
  exact getNamespace_of_found h

theorem getNamespace_congr (s : Server) {nsp other : String}
    (hn : normalizeNsp other = normalizeNsp nsp) :
    s.getNamespace other = s.getNamespace nsp := by
  cases hl : s.handlers.handlers.lookup (normalizeNsp nsp) with
  | some p => rw [getNamespace_of_found hl, getNamespace_of_found (hn ▸ hl)]
  | none => rw [getNamespace_of_missing hl, getNamespace_of_missing (hn ▸ hl), hn]

theorem getNamespace_keys (s : Server) (nsp k : String) :
    k ∈ (s.getNamespace nsp).2.handlers.handlers.keys ↔
      k = normalizeNsp nsp ∨ k ∈ s.handlers.handlers.keys := by
  cases hl : s.handlers.handlers.lookup (normalizeNsp nsp) with
  | some p =>
    rw [getNamespace_of_found hl]
    have hk : normalizeNsp nsp ∈ s.handlers.handlers.keys := by
      rw [← AList.mem_keys, ← AList.lookup_isSome, hl]; rfl
    constructor
    · intro h; exact Or.inr h
    · rintro (rfl | h)
      · exact hk
      · exact h
  | none => rw [getNamespace_of_missing hl]; exact mem_keys_Set _ _ _ _

theorem getNamespace_size (s : Server) (nsp : String) :
    (s.getNamespace nsp).2.handlers.size =
      if normalizeNsp nsp ∈ s.handlers.handlers.keys then s.handlers.size
      else s.handlers.size + 1 := by
  cases hl : s.handlers.handlers.lookup (normalizeNsp nsp) with
  | some p =>
    have hk : normalizeNsp nsp ∈ s.handlers.handlers.keys := by
      rw [← AList.mem_keys, ← AList.lookup_isSome, hl]; rfl
    rw [getNamespace_of_found hl, if_pos hk]
  | none =>
    have hk : normalizeNsp nsp ∉ s.handlers.handlers.keys := by
      rw [← AList.mem_keys, ← AList.lookup_isSome, hl]; simp
    rw [getNamespace_of_missing hl, if_neg hk]
    exact size_Set_of_not_mem _ _ hk

theorem normalizeNsp_ne_slash (nsp : String) : normalizeNsp nsp ≠ "/" := by
  unfold normalizeNsp
  split
  · decide
  · assumption

theorem normalizeNsp_of_ne_slash {nsp : String} (h : nsp ≠ "/") : normalizeNsp nsp = nsp := by
  simp [normalizeNsp, h]

theorem normalizeNsp_idem (nsp : String) : normalizeNsp (normalizeNsp nsp) = normalizeNsp nsp :=
  normalizeNsp_of_ne_slash (normalizeNsp_ne_slash nsp)

theorem key_getNamespace (nsp : String) :
    (RegistryOp.getNamespace nsp).key = normalizeNsp nsp := rfl

theorem apply_keys (s : Server) (op : RegistryOp) (k : String) :
    k ∈ (s.apply op).handlers.handlers.keys ↔ k = op.key ∨ k ∈ s.handlers.handlers.keys := by
  cases op with
  | set nsp p => exact mem_keys_Set _ _ _ _
  | getNamespace nsp => exact getNamespace_keys s nsp k

theorem applyAll_keys (ops : List RegistryOp) (s : Server) (k : String) :
    k ∈ (s.applyAll ops).handlers.handlers.keys ↔
      (∃ op ∈ ops, op.key = k) ∨ k ∈ s.handlers.handlers.keys := by
  induction ops generalizing s with
  | nil => simp [Server.applyAll]
  | cons op ops ih =>
    have h := ih (s.apply op)
    simp only [Server.applyAll, List.foldl_cons] at h ⊢
    rw [h, apply_keys]
    simp only [List.mem_cons, exists_eq_or_imp]
    constructor
    · rintro (h1 | h2 | h3)
      · exact Or.inl (Or.inr h1)
      · exact Or.inl (Or.inl h2.symm)
      · exact Or.inr h3
    · rintro ((h1 | h2) | h3)
      · exact Or.inr (Or.inl h1.symm)
      · exact Or.inl h2
      · exact Or.inr (Or.inr h3)

theorem newServer_keys : newServer.handlers.handlers.keys = [] := rfl

theorem onePerNormalizedName_of_no_slash {h : namespaceHandlers}
    (hs : "/" ∉ h.handlers.keys) : h.OnePerNormalizedName := by
  intro k1 h1 k2 h2 hn
  have e1 : k1 ≠ "/" := fun e => hs (e ▸ h1)
  have e2 : k2 ≠ "/" := fun e => hs (e ▸ h2)
  rwa [normalizeNsp_of_ne_slash e1, normalizeNsp_of_ne_slash e2] at hn

/-! ### Claims about the registry -/

/-- C1: from every state, `getNamespace "/"` and `getNamespace ""` behave identically, and
calling one after the other (in either order) returns the same handler pointer both times; the
registry afterwards holds that pointer under the key `""`, has at most one entry more than
before, and every key it has that was not there before is `""`. -/
theorem getNamespace_root_names_same_handler (s : Server) :
    s.getNamespace "/" = s.getNamespace "" ∧
    ((s.getNamespace "/").2.getNamespace "").1 = (s.getNamespace "/").1 ∧
    ((s.getNamespace "").2.getNamespace "/").1 = (s.getNamespace "").1 ∧
    ((s.getNamespace "/").2.getNamespace "").1 = ((s.getNamespace "").2.getNamespace "/").1 ∧
    ((s.getNamespace "/").2.getNamespace "").2.handlers.Get ""
      = ((s.getNamespace "/").1, true) ∧
    ((s.getNamespace "").2.getNamespace "/").2.handlers.Get ""
      = ((s.getNamespace "").1, true) ∧
    ((s.getNamespace "/").2.getNamespace "").2.handlers.size ≤ s.handlers.size + 1 ∧
    ((s.getNamespace "").2.getNamespace "/").2.handlers.size ≤ s.handlers.size + 1 ∧
    (∀ k, k ∈ ((s.getNamespace "/").2.getNamespace "").2.handlers.handlers.keys →
      k = "" ∨ k ∈ s.handlers.handlers.keys) ∧
    (∀ k, k ∈ ((s.getNamespace "").2.getNamespace "/").2.handlers.handlers.keys →
      k = "" ∨ k ∈ s.handlers.handlers.keys) := by
  have hn : normalizeNsp "/" = normalizeNsp "" := by decide
  have hroot : normalizeNsp "" = "" := by decide
  have e1 : s.getNamespace "/" = s.getNamespace "" := getNamespace_congr s hn
  have a1 : (s.getNamespace "/").2.getNamespace "" = s.getNamespace "/" :=
    getNamespace_again s hn.symm
  have a2 : (s.getNamespace "").2.getNamespace "/" = s.getNamespace "" :=
    getNamespace_again s hn
  have hget : (s.getNamespace "").2.handlers.Get "" = ((s.getNamespace "").1, true) := by
    have := getNamespace_lookup s ""
    rw [hroot] at this
    exact Get_eq_of_lookup_some this
  have hsize : (s.getNamespace "").2.handlers.size ≤ s.handlers.size + 1 := by
    rw [getNamespace_size]; split <;> omega
  have hkeys : ∀ k, k ∈ (s.getNamespace "").2.handlers.handlers.keys →
      k = "" ∨ k ∈ s.handlers.handlers.keys := by
    intro k hk
    have := (getNamespace_keys s "" k).1 hk
    rwa [hroot] at this
  rw [a1, a2, e1]
  exact ⟨rfl, rfl, rfl, rfl, hget, hget, hsize, hsize, hkeys, hkeys⟩

/-- C4: after `Set(name, h)` the call `Get(name)` returns `(h, true)`; when the name already had
an entry the number of entries is unchanged (the old handler is replaced), otherwise it grows
by one. -/
theorem Set_then_Get_returns_handler (h : namespaceHandlers) (nsp : String)
    (handler : HandlerPtr) :
    (h.Set nsp handler).Get nsp = (handler, true) ∧
    (h.Set nsp handler).size =
      if (h.Get nsp).2 = true then h.size else h.size + 1 := by
  refine ⟨Get_after_Set h nsp handler, ?_⟩
  by_cases hk : nsp ∈ h.handlers.keys
  · rw [if_pos ((Get_found_iff h nsp).2 hk)]
    exact size_Set_of_mem h handler hk
  · rw [if_neg (fun hf => hk ((Get_found_iff h nsp).1 hf))]
    exact size_Set_of_not_mem h handler hk

/-- C2 (counterexample): `Set` stores its key as given. After `getNamespace("/")` created the
root handler under `""`, a `Set("/", thatHandler)` adds the key `"/"`: both keys are present
and both normalize to `""`. -/
theorem set_slash_breaks_one_per_name :
    "/" ∈ (newServer.applyAll [.getNamespace "/", .set "/" (some 0)]).handlers.handlers.keys ∧
    "" ∈ (newServer.applyAll [.getNamespace "/", .set "/" (some 0)]).handlers.handlers.keys ∧
    ¬ (newServer.applyAll
        [.getNamespace "/", .set "/" (some 0)]).handlers.OnePerNormalizedName := by
  have h1 : "/" ∈
      (newServer.applyAll [.getNamespace "/", .set "/" (some 0)]).handlers.handlers.keys := by
    decide
  have h2 : "" ∈
      (newServer.applyAll [.getNamespace "/", .set "/" (some 0)]).handlers.handlers.keys := by
    decide
  refine ⟨h1, h2, fun h => ?_⟩
  have := h "/" h1 "" h2 (by decide)
  exact absurd this (by decide)

/-- C2 (amended): in every state reached from a new server by `getNamespace` calls and by `Set`
calls whose name is not `"/"`, the key `"/"` is absent, the keys are pairwise distinct, and no
two keys normalize to the same name. -/
theorem reachable_one_per_normalized_name (ops : List RegistryOp)
    (hops : ∀ nsp handler, RegistryOp.set nsp handler ∈ ops → nsp ≠ "/") :
    "/" ∉ (newServer.applyAll ops).handlers.handlers.keys ∧
    (newServer.applyAll ops).handlers.handlers.keys.Nodup ∧
    (newServer.applyAll ops).handlers.OnePerNormalizedName := by
  have hno : "/" ∉ (newServer.applyAll ops).handlers.handlers.keys := by
    rw [applyAll_keys, newServer_keys]
    rintro (⟨op, hop, hk⟩ | h)
    · cases op with
      | set nsp p => exact hops nsp p hop hk
      | getNamespace nsp => exact normalizeNsp_ne_slash nsp hk
    · simp at h
  exact ⟨hno, AList.keys_nodup _, onePerNormalizedName_of_no_slash hno⟩

/-- Witness for C2 (amended): a run mixing both operations. -/
theorem reachable_one_per_normalized_name_witness :
    (∀ nsp handler, RegistryOp.set nsp handler ∈
        [RegistryOp.getNamespace "/", .set "/chat" none, .getNamespace "", .set "" (some 0)] →
          nsp ≠ "/") ∧
    "/" ∉ (newServer.applyAll
      [.getNamespace "/", .set "/chat" none, .getNamespace "", .set "" (some 0)]
        ).handlers.handlers.keys ∧
    (newServer.applyAll
      [.getNamespace "/", .set "/chat" none, .getNamespace "", .set "" (some 0)]
        ).handlers.handlers.keys.Nodup ∧
    (newServer.applyAll
      [.getNamespace "/", .set "/chat" none, .getNamespace "", .set "" (some 0)]
        ).handlers.OnePerNormalizedName :=
  ⟨by intro nsp handler h; simp at h; rcases h with ⟨rfl, _⟩ | ⟨rfl, _⟩ <;> decide,
   reachable_one_per_normalized_name _
    (by intro nsp handler h; simp at h; rcases h with ⟨rfl, _⟩ | ⟨rfl, _⟩ <;> decide)⟩

theorem locked_Get_eq (readers : Nat) (handlers : AList (fun _ : String => HandlerPtr))
    (nsp : String) :
    Locked.namespaceHandlers.Get
        { mu := { readers := readers, writer := false }, handlers := handlers } nsp
      = .ok (namespaceHandlers.Get { handlers := handlers } nsp,
          { mu := { readers := readers, writer := false }, handlers := handlers }) := by
  simp only [Locked.namespaceHandlers.Get, RWMutex.RLock, RWMutex.RUnlock, namespaceHandlers.Get]
  rfl

/-- C5 (counterexample): after the get-or-create `getNamespace("/")` on a new server, which
was called with the name `"/"` and created one handler, `Get("/")` still reports
`found = false`; so the flag is not "false exactly when no earlier operation was for that
name". -/
theorem Get_slash_not_found_after_getNamespace_slash :
    (newServer.applyAll [.getNamespace "/"]).handlers.size = 1 ∧
    (newServer.applyAll [.getNamespace "/"]).heap.length = 1 ∧
    ((newServer.applyAll [.getNamespace "/"]).handlers.Get "/").2 = false ∧
    ¬ (((newServer.applyAll [.getNamespace "/"]).handlers.Get "/").2 = false ↔
        ∀ op ∈ [RegistryOp.getNamespace "/"], op.name ≠ "/") := by
  refine ⟨by decide, by decide, by decide, ?_⟩
  intro h
  have hf : ((newServer.applyAll [.getNamespace "/"]).handlers.Get "/").2 = false := by decide
  exact h.1 hf (RegistryOp.getNamespace "/") (by simp) rfl

/-- C5 (amended): `Get` looks its argument up as given. After any sequence of `Set` and
`getNamespace` operations on a new server, `Get(name)` returns `found = false` exactly when no
operation of the sequence stored under the key `name`, where `Set(n, _)` stores under `n` and
`getNamespace(n)` stores under `n` rewritten (`"/"` to `""`). With the mutex explicit, `Get`
returns the same answer and hands back the registry and the mutex as they were. -/
theorem Get_not_found_iff_key_never_written (ops : List RegistryOp) (name : String) :
    (((newServer.applyAll ops).handlers.Get name).2 = false ↔ ∀ op ∈ ops, op.key ≠ name) ∧
    (∀ readers : Nat,
      Locked.namespaceHandlers.Get
          { mu := { readers := readers, writer := false },
            handlers := (newServer.applyAll ops).handlers.handlers } name
        = .ok ((newServer.applyAll ops).handlers.Get name,
            { mu := { readers := readers, writer := false },
              handlers := (newServer.applyAll ops).handlers.handlers })) := by
  refine ⟨?_, fun readers => locked_Get_eq readers _ name⟩
  have hk := applyAll_keys ops newServer name
  rw [newServer_keys] at hk
  have hf := Get_found_iff (newServer.applyAll ops).handlers name
  constructor
  · intro hfalse op hop hkey
    have : name ∈ (newServer.applyAll ops).handlers.handlers.keys :=
      hk.2 (Or.inl ⟨op, hop, hkey⟩)
    rw [hf.2 this] at hfalse
    exact absurd hfalse (by decide)
  · intro hall
    cases hg : ((newServer.applyAll ops).handlers.Get name).2 with
    | false => rfl
    | true =>
      rcases hk.1 (hf.1 hg) with ⟨op, hop, hkey⟩ | h
      · exact absurd hkey (hall op hop)
      · simp at h

/-! ### The accept loop -/

theorem serveLoop_succ_ok (s : Server) (newConn : engineioConn → Server → Option Error)
    (accept : Nat → engineioConn × Option Error) (fuel i : Nat) (h : (accept i).2 = none) :
    s.serveLoop newConn accept (fuel + 1) i =
      { ret := (s.serveLoop newConn accept fuel (i + 1)).ret
        spawned := (accept i).1 :: (s.serveLoop newConn accept fuel (i + 1)).spawned
        invoked := s.serveConn newConn (accept i).1 ++
          (s.serveLoop newConn accept fuel (i + 1)).invoked } := by
  rcases ha : accept i with ⟨conn, err⟩
  rw [ha] at h
  simp only at h
  subst h
  simp [Server.serveLoop, ha]

theorem serveLoop_succ_err (s : Server) (newConn : engineioConn → Server → Option Error)
    (accept : Nat → engineioConn × Option Error) (fuel i : Nat) (e : Error)
    (h : (accept i).2 = some e) :
    s.serveLoop newConn accept (fuel + 1) i =
      { ret := some (some e), spawned := [], invoked := [] } := by
  rcases ha : accept i with ⟨conn, err⟩
  rw [ha] at h
  simp only at h
  subst h
  simp [Server.serveLoop, ha]

theorem serveLoop_first_error (s : Server) (newConn : engineioConn → Server → Option Error)
    (accept : Nat → engineioConn × Option Error) (n : Nat) :
    ∀ (fuel i : Nat) (e : Error), (∀ j, i ≤ j → j < i + n → (accept j).2 = none) →
      (accept (i + n)).2 = some e → n < fuel →
      (s.serveLoop newConn accept fuel i).ret = some (some e) ∧
      (s.serveLoop newConn accept fuel i).spawned
        = (List.range' i n).map fun j => (accept j).1 := by
  induction n with
  | zero =>
    intro fuel i e _ herr hfuel
    obtain ⟨fuel, rfl⟩ : ∃ k, fuel = k + 1 := ⟨fuel - 1, by omega⟩
    rw [serveLoop_succ_err s newConn accept fuel i e (by simpa using herr)]
    simp
  | succ n ih =>
    intro fuel i e hok herr hfuel
    obtain ⟨fuel, rfl⟩ : ∃ k, fuel = k + 1 := ⟨fuel - 1, by omega⟩
    rw [serveLoop_succ_ok s newConn accept fuel i (hok i (le_refl i) (by omega))]
    have := ih fuel (i + 1) e (fun j h1 h2 => hok j (by omega) (by omega))
      (by rw [← herr]; congr 2; omega) (by omega)
    simp [this.1, this.2, List.range'_succ]

theorem serveLoop_running (s : Server) (newConn : engineioConn → Server → Option Error)
    (accept : Nat → engineioConn × Option Error) (fuel : Nat) :
    ∀ i : Nat, (∀ j, i ≤ j → j < i + fuel → (accept j).2 = none) →
      (s.serveLoop newConn accept fuel i).ret = none ∧
      (s.serveLoop newConn accept fuel i).spawned
        = (List.range' i fuel).map fun j => (accept j).1 := by
  induction fuel with
  | zero => intro i _; simp [Server.serveLoop]
  | succ fuel ih =>
    intro i hok
    rw [serveLoop_succ_ok s newConn accept fuel i (hok i (le_refl i) (by omega))]
    have := ih (i + 1) (fun j h1 h2 => hok j (by omega) (by omega))
    simp [this.1, this.2, List.range'_succ]

theorem serveLoop_ret_sound (s : Server) (newConn : engineioConn → Server → Option Error)
    (accept : Nat → engineioConn × Option Error) (fuel : Nat) :
    ∀ (i : Nat) (r : Option Error), (s.serveLoop newConn accept fuel i).ret = some r →
      ∃ n e, n < fuel ∧ r = some e ∧ (accept (i + n)).2 = some e ∧
        ∀ j, i ≤ j → j < i + n → (accept j).2 = none := by
  induction fuel with
  | zero => intro i r h; simp [Server.serveLoop] at h
  | succ fuel ih =>
    intro i r h
    cases herr : (accept i).2 with
    | some e =>
      rw [serveLoop_succ_err s newConn accept fuel i e herr] at h
      simp only [Option.some.injEq] at h
      exact ⟨0, e, by omega, h.symm, by simpa using herr, fun j h1 h2 => by omega⟩
    | none =>
      rw [serveLoop_succ_ok s newConn accept fuel i herr] at h
      obtain ⟨n, e, hn, hr, he, hok⟩ := ih (i + 1) r h
      refine ⟨n + 1, e, by omega, hr, ?_, ?_⟩
      · rw [← he]; congr 2; omega
      · intro j h1 h2
        by_cases hj : j = i
        · rw [hj]; exact herr
        · exact hok j (by omega) (by omega)

theorem serveLoop_independent (s s2 : Server)
    (newConn newConn2 : engineioConn → Server → Option Error)
    (accept : Nat → engineioConn × Option Error) (fuel : Nat) :
    ∀ i : Nat,
      (s.serveLoop newConn accept fuel i).ret = (s2.serveLoop newConn2 accept fuel i).ret ∧
      (s.serveLoop newConn accept fuel i).spawned
        = (s2.serveLoop newConn2 accept fuel i).spawned := by
  induction fuel with
  | zero => intro i; simp [Server.serveLoop]
  | succ fuel ih =>
    intro i
    cases herr : (accept i).2 with
    | some e =>
      rw [serveLoop_succ_err s newConn accept fuel i e herr,
        serveLoop_succ_err s2 newConn2 accept fuel i e herr]
      exact ⟨rfl, rfl⟩
    | none =>
      rw [serveLoop_succ_ok s newConn accept fuel i herr,
        serveLoop_succ_ok s2 newConn2 accept fuel i herr]
      simp [(ih (i + 1)).1, (ih (i + 1)).2]

/-- C7: `Serve` returns exactly the first error reported by `Accept`: if the calls before the
`n`-th succeed and the `n`-th reports `e`, then `Serve` returns `e` (for every bound above `n`
on the number of iterations); as long as every call so far succeeded `Serve` has not returned;
it never returns a nil error; and whatever it returns is the error of the first failing call. -/
theorem Serve_returns_first_Accept_error (s : Server)
    (newConn : engineioConn → Server → Option Error)
    (accept : Nat → engineioConn × Option Error) :
    (∀ n e, (∀ j, j < n → (accept j).2 = none) → (accept n).2 = some e →
      ∀ fuel, n < fuel → (s.Serve newConn accept fuel).ret = some (some e)) ∧
    (∀ fuel, (∀ j, j < fuel → (accept j).2 = none) →
      (s.Serve newConn accept fuel).ret = none) ∧
    (∀ fuel, (s.Serve newConn accept fuel).ret ≠ some none) ∧
    (∀ fuel r, (s.Serve newConn accept fuel).ret = some r →
      ∃ n e, n < fuel ∧ r = some e ∧ (accept n).2 = some e ∧
        ∀ j, j < n → (accept j).2 = none) := by
  refine ⟨?_, ?_, ?_, ?_⟩
  · intro n e hok herr fuel hfuel
    exact (serveLoop_first_error s newConn accept n fuel 0 e
      (fun j _ h => hok j (by omega)) (by simpa using herr) hfuel).1
  · intro fuel hok
    exact (serveLoop_running s newConn accept fuel 0 (fun j _ h => hok j (by omega))).1
  · intro fuel h
    obtain ⟨n, e, _, hr, _, _⟩ := serveLoop_ret_sound s newConn accept fuel 0 none h
    exact absurd hr (by simp)
  · intro fuel r h
    obtain ⟨n, e, hn, hr, he, hok⟩ := serveLoop_ret_sound s newConn accept fuel 0 r h
    exact ⟨n, e, hn, hr, by simpa using he, fun j hj => hok j (by omega) (by omega)⟩

/-- Witness for C7: two connections are accepted, the third `Accept` reports error `7`. -/
theorem Serve_returns_first_Accept_error_witness :
    (∀ j, j < 2 → ((fun i => if i < 2 then (i + 10, none) else (0, some 7) :
        Nat → engineioConn × Option Error) j).2 = none) ∧
    ((fun i => if i < 2 then (i + 10, none) else (0, some 7) :
        Nat → engineioConn × Option Error) 2).2 = some 7 ∧
    (newServer.Serve (fun _ _ => some 3)
      (fun i => if i < 2 then (i + 10, none) else (0, some 7)) 5).ret = some (some 7) :=
  ⟨by decide, by decide,
   (Serve_returns_first_Accept_error newServer (fun _ _ => some 3)
      (fun i => if i < 2 then (i + 10, none) else (0, some 7))).1 2 7
      (by decide) (by decide) 5 (by decide)⟩

/-- C8: the value `Serve` returns and the workers it spawns do not depend on the binder or on
the registry state, hence not on whether bindings fail; the workers spawned are exactly the
connections accepted before the first `Accept` error, one each, in order. -/
theorem Serve_independent_of_binding (s s2 : Server)
    (newConn newConn2 : engineioConn → Server → Option Error)
    (accept : Nat → engineioConn × Option Error) :
    (∀ fuel, (s.Serve newConn accept fuel).ret = (s2.Serve newConn2 accept fuel).ret ∧
      (s.Serve newConn accept fuel).spawned = (s2.Serve newConn2 accept fuel).spawned) ∧
    (∀ n e, (∀ j, j < n → (accept j).2 = none) → (accept n).2 = some e →
      ∀ fuel, n < fuel →
        (s.Serve newConn accept fuel).ret = some (some e) ∧
        (s.Serve newConn accept fuel).spawned = (List.range n).map fun j => (accept j).1) ∧
    (∀ fuel, (∀ j, j < fuel → (accept j).2 = none) →
      (s.Serve newConn accept fuel).spawned = (List.range fuel).map fun j => (accept j).1) := by
  refine ⟨fun fuel => serveLoop_independent s s2 newConn newConn2 accept fuel 0, ?_, ?_⟩
  · intro n e hok herr fuel hfuel
    have := serveLoop_first_error s newConn accept n fuel 0 e
      (fun j _ h => hok j (by omega)) (by simpa using herr) hfuel
    rw [List.range_eq_range']
    exact this
  · intro fuel hok
    have := serveLoop_running s newConn accept fuel 0 (fun j _ h => hok j (by omega))
    rw [List.range_eq_range']
    exact this.2

/-- Witness for C8: every binding fails, and still both connections get a worker and `Serve`
returns the error of the third `Accept`. -/
theorem Serve_independent_of_binding_witness :
    (∀ j, j < 2 → ((fun i => if i < 2 then (i + 10, none) else (0, some 7) :
        Nat → engineioConn × Option Error) j).2 = none) ∧
    ((fun i => if i < 2 then (i + 10, none) else (0, some 7) :
        Nat → engineioConn × Option Error) 2).2 = some 7 ∧
    (newServer.Serve (fun _ _ => some 3)
      (fun i => if i < 2 then (i + 10, none) else (0, some 7)) 5).ret = some (some 7) ∧
    (newServer.Serve (fun _ _ => some 3)
      (fun i => if i < 2 then (i + 10, none) else (0, some 7)) 5).spawned
        = (List.range 2).map fun j =>
            ((fun i => if i < 2 then (i + 10, none) else (0, some 7) :
              Nat → engineioConn × Option Error) j).1 :=
  ⟨by decide, by decide,
   (Serve_independent_of_binding newServer newServer (fun _ _ => some 3) (fun _ _ => none)
      (fun i => if i < 2 then (i + 10, none) else (0, some 7))).2.1 2 7
      (by decide) (by decide) 5 (by decide)⟩

/-! ### Registration and `serveConn` -/

theorem getNamespace_WF (s : Server) (nsp : String) (hwf : s.WF) :
    (s.getNamespace nsp).2.WF ∧
    ∃ a, (s.getNamespace nsp).1 = some a ∧ a < (s.getNamespace nsp).2.heap.length := by
  cases hl : s.handlers.handlers.lookup (normalizeNsp nsp) with
  | some p =>
    rw [getNamespace_of_found hl]
    exact ⟨hwf, hwf _ _ hl⟩
  | none =>
    rw [getNamespace_of_missing hl]
    refine ⟨?_, s.heap.length, rfl, by simp [newHandler]⟩
    intro k p hk
    by_cases hkn : k = normalizeNsp nsp
    · subst hkn
      simp only [namespaceHandlers.Set, AList.lookup_insert, Option.some.injEq] at hk
      exact ⟨s.heap.length, hk.symm, by simp [newHandler]⟩
    · simp only [namespaceHandlers.Set, AList.lookup_insert_ne hkn] at hk
      obtain ⟨a, ha, hlt⟩ := hwf k p hk
      exact ⟨a, ha, by simp [newHandler]; omega⟩

theorem register_some {s s1 : Server} {k : Lifecycle} {nsp : String} {f : Option Callback}
    (h : s.register k nsp f = some s1) :
    ∃ a, (s.getNamespace nsp).1 = some a ∧ a < (s.getNamespace nsp).2.heap.length ∧
      s1.handlers = (s.getNamespace nsp).2.handlers ∧
      s1.heap.length = (s.getNamespace nsp).2.heap.length ∧
      s1.callbackOf k (some a) = f := by
  rcases hr : s.getNamespace nsp with ⟨p, s0⟩
  cases k <;>
  · simp only [Server.register, Server.OnConnect, Server.OnDisconnect, Server.OnError, hr] at h
    cases p with
    | none =>
      simp [namespaceHandler.OnConnect, namespaceHandler.OnDisconnect,
        namespaceHandler.OnError] at h
    | some a =>
      cases hobj : s0.heap[a]? with
      | none =>
        simp [namespaceHandler.OnConnect, namespaceHandler.OnDisconnect,
          namespaceHandler.OnError, hobj] at h
      | some obj =>
        have hlt : a < s0.heap.length := by
          by_contra hge
          rw [List.getElem?_eq_none (by omega)] at hobj
          exact absurd hobj (by simp)
        simp only [namespaceHandler.OnConnect, namespaceHandler.OnDisconnect,
          namespaceHandler.OnError, hobj, Option.map_some', Option.some.injEq] at h
        subst h
        refine ⟨a, rfl, hlt, rfl, by simp, ?_⟩
        simp [Server.callbackOf, List.getElem?_set, hlt]

theorem register_of_valid {s s0 : Server} {nsp : String} {a : Nat} (k : Lifecycle)
    (f : Option Callback) (hr : s.getNamespace nsp = (some a, s0)) (hlt : a < s0.heap.length) :
    ∃ s1, s.register k nsp f = some s1 := by
  have hobj : s0.heap[a]? = some s0.heap[a] := List.getElem?_eq_getElem hlt
  cases k <;>
  · simp [Server.register, Server.OnConnect, Server.OnDisconnect, Server.OnError, hr,
      namespaceHandler.OnConnect, namespaceHandler.OnDisconnect, namespaceHandler.OnError, hobj]

theorem WF_of_same_shape {s s1 : Server} (hh : s1.handlers = s.handlers)
    (hl : s1.heap.length = s.heap.length) (hwf : s.WF) : s1.WF := by
  intro k p hk
  rw [hh] at hk
  obtain ⟨b, hb, hblt⟩ := hwf k p hk
  exact ⟨b, hb, by omega⟩

theorem register_of_WF (s : Server) (k : Lifecycle) (nsp : String) (f : Option Callback)
    (hwf : s.WF) : ∃ s1, s.register k nsp f = some s1 ∧ s1.WF := by
  obtain ⟨hwf0, a, hp, hlt⟩ := getNamespace_WF s nsp hwf
  have hr : s.getNamespace nsp = (some a, (s.getNamespace nsp).2) := by rw [← hp]
  obtain ⟨s1, h1⟩ := register_of_valid k f hr hlt
  obtain ⟨_, _, _, hh, hl, _⟩ := register_some h1
  exact ⟨s1, h1, WF_of_same_shape hh hl hwf0⟩

theorem newServer_WF : newServer.WF := by
  intro nsp p h
  simp [newServer, newNamespaceHandlers] at h

theorem serveConn_eq (s : Server) (newConn : engineioConn → Server → Option Error)
    (c : engineioConn) :
    s.serveConn newConn c =
      match newConn c s with
      | none => []
      | some e =>
        match s.callbackOf .error (s.handlers.Get "").1 with
        | some f => [(f, e)]
        | none => [] := by
  unfold Server.serveConn Server.callbackOf
  cases newConn c s with
  | none => rfl
  | some e =>
    simp only
    cases (s.handlers.Get "").1 with
    | none => rfl
    | some a =>
      simp only
      cases s.heap[a]? with
      | none => rfl
      | some obj =>
        simp only
        cases obj.onError <;> rfl

theorem Get_root_after_OnError {s0 s : Server} {nsp : String} {f : Option Callback}
    (hn : nsp = "" ∨ nsp = "/") (h : s0.OnError nsp f = some s) :
    s.callbackOf .error (s.handlers.Get "").1 = f := by
  have hreg : s0.register .error nsp f = some s := h
  obtain ⟨a, hp, _, hh, _, hcb⟩ := register_some hreg
  have hl := getNamespace_lookup s0 nsp
  have hroot : normalizeNsp nsp = "" := by
    rcases hn with rfl | rfl <;> decide
  rw [hroot, hp, ← hh] at hl
  rw [Get_eq_of_lookup_some hl]
  exact hcb

/-- C6: when binding succeeds `serveConn` invokes nothing. When binding fails with `e`:
if the handler stored under `""` has the error callback `f`, `serveConn` invokes `f` once, with
`e`, and nothing else; if there is no entry under `""`, or the entry is nil, or its error
callback is unset, nothing is invoked. A callback `f` registered by `OnError("", f)` or by
`OnError("/", f)` is the one invoked. -/
theorem serveConn_reports_failure_to_root_once (s : Server)
    (newConn : engineioConn → Server → Option Error) (c : engineioConn) :
    (newConn c s = none → s.serveConn newConn c = []) ∧
    (∀ e, newConn c s = some e →
      (∀ f, s.callbackOf .error (s.handlers.Get "").1 = some f →
        s.serveConn newConn c = [(f, e)]) ∧
      (s.callbackOf .error (s.handlers.Get "").1 = none → s.serveConn newConn c = []) ∧
      ((s.handlers.Get "").2 = false → s.serveConn newConn c = []) ∧
      (∀ (s0 : Server) (nsp : String) (f : Callback), nsp = "" ∨ nsp = "/" →
        s0.OnError nsp (some f) = some s → s.serveConn newConn c = [(f, e)]) ∧
      (∀ (s0 : Server) (nsp : String), nsp = "" ∨ nsp = "/" → s0.OnError nsp none = some s →
        s.serveConn newConn c = [])) := by
  refine ⟨fun h => by rw [serveConn_eq, h], fun e he => ⟨?_, ?_, ?_, ?_, ?_⟩⟩
  · intro f hf
    rw [serveConn_eq, he, hf]
  · intro hf
    rw [serveConn_eq, he, hf]
  · intro hnf
    have hnone : (s.handlers.Get "").1 = none := by
      unfold namespaceHandlers.Get at hnf ⊢
      cases hl : s.handlers.handlers.lookup "" with
      | none => rfl
      | some p => rw [hl] at hnf; exact absurd hnf (by simp)
    rw [serveConn_eq, he, hnone]
    rfl
  · intro s0 nsp f hn h
    rw [serveConn_eq, he, Get_root_after_OnError hn h]
  · intro s0 nsp hn h
    rw [serveConn_eq, he, Get_root_after_OnError hn h]

/-- Witness for C6: the error callback `5` is registered under `"/"` on a new server; a
connection whose binding fails with error `9` makes `serveConn` invoke `5` once, with `9`. -/
theorem serveConn_reports_failure_to_root_once_witness :
    (fun (_ : engineioConn) (_ : Server) => some 9 : engineioConn → Server → Option Error) 7
        { handlers := newNamespaceHandlers.Set "" (some 0),
          heap := [{ onConnect := none, onDisconnect := none, onError := some 5, events := ∅ }] }
      = some 9 ∧
    (("/" : String) = "" ∨ ("/" : String) = "/") ∧
    newServer.OnError "/" (some 5)
      = some { handlers := newNamespaceHandlers.Set "" (some 0),
               heap := [{ onConnect := none, onDisconnect := none, onError := some 5,
                          events := ∅ }] } ∧
    Server.serveConn (fun _ _ => some 9)
        { handlers := newNamespaceHandlers.Set "" (some 0),
          heap := [{ onConnect := none, onDisconnect := none, onError := some 5, events := ∅ }] }
        7
      = [(5, 9)] :=
  ⟨rfl, Or.inr rfl, rfl,
   ((serveConn_reports_failure_to_root_once
      { handlers := newNamespaceHandlers.Set "" (some 0),
        heap := [{ onConnect := none, onDisconnect := none, onError := some 5, events := ∅ }] }
      (fun _ _ => some 9) 7).2 9 rfl).2.2.2.1 newServer "/" 5 (Or.inr rfl) rfl⟩

/-- C9: if a registration call (`OnConnect`, `OnDisconnect` or `OnError`) for a name returns,
then a second call of the same kind for that name returns too, both resolve to the same handler
pointer, the second leaves the registry map and the number of handler objects unchanged, and
the handler's field holds the first callback after the first call and only the second callback
after the second. If the name had no entry before the first call, the registry has exactly one
entry more after it (and after the second call). On a state whose stored pointers are all
valid, in particular a new server, the first call does return. -/
theorem register_twice_overwrites (s : Server) (k : Lifecycle) (nsp : String)
    (f g : Option Callback) :
    (∀ s1, s.register k nsp f = some s1 →
      ∃ s2 a,
        s1.register k nsp g = some s2 ∧
        (s.getNamespace nsp).1 = some a ∧ (s1.getNamespace nsp).1 = some a ∧
        s2.handlers = s1.handlers ∧ s2.heap.length = s1.heap.length ∧
        s1.callbackOf k (some a) = f ∧ s2.callbackOf k (some a) = g ∧
        s2.handlers.Get (normalizeNsp nsp) = (some a, true) ∧
        ((s.handlers.Get (normalizeNsp nsp)).2 = false →
          s1.handlers.size = s.handlers.size + 1 ∧ s2.handlers.size = s.handlers.size + 1 ∧
          s2.heap.length = s.heap.length + 1) ∧
        ((s.handlers.Get (normalizeNsp nsp)).2 = true →
          s2.handlers.size = s.handlers.size ∧ s2.heap.length = s.heap.length)) ∧
    (s.WF → ∃ s1, s.register k nsp f = some s1 ∧ s1.WF) ∧
    newServer.WF := by
  refine ⟨?_, register_of_WF s k nsp f, newServer_WF⟩
  intro s1 h1
  obtain ⟨a, hp, hlt, hh, hlen, hcb⟩ := register_some h1
  have hl := getNamespace_lookup s nsp
  rw [hp, ← hh] at hl
  have hr1 : s1.getNamespace nsp = (some a, s1) := getNamespace_of_found hl
  obtain ⟨s2, h2⟩ := register_of_valid k g hr1 (by omega)
  obtain ⟨a2, hp2, _, hh2, hlen2, hcb2⟩ := register_some h2
  rw [hr1] at hp2 hh2 hlen2
  simp only [Option.some.injEq] at hp2 hh2 hlen2
  subst hp2
  refine ⟨s2, a, h2, hp, by rw [hr1], hh2, hlen2, hcb, hcb2, ?_, ?_, ?_⟩
  · rw [hh2]; exact Get_eq_of_lookup_some hl
  · intro hnf
    have hk : normalizeNsp nsp ∉ s.handlers.handlers.keys :=
      fun hk => by rw [(Get_found_iff _ _).2 hk] at hnf; exact absurd hnf (by decide)
    have hsz := getNamespace_size s nsp
    rw [if_neg hk] at hsz
    have hnone : s.handlers.handlers.lookup (normalizeNsp nsp) = none := by
      cases hl0 : s.handlers.handlers.lookup (normalizeNsp nsp) with
      | none => rfl
      | some p =>
        exfalso
        apply hk
        rw [← AList.mem_keys, ← AList.lookup_isSome, hl0]
        rfl
    have hheap : (s.getNamespace nsp).2.heap.length = s.heap.length + 1 := by
      rw [getNamespace_of_missing hnone]; simp [newHandler]
    refine ⟨by rw [hh]; exact hsz, by rw [hh2, hh]; exact hsz, by omega⟩
  · intro hfound
    have hk : normalizeNsp nsp ∈ s.handlers.handlers.keys := (Get_found_iff _ _).1 hfound
    have hsz := getNamespace_size s nsp
    rw [if_pos hk] at hsz
    obtain ⟨p, hsome⟩ : ∃ p, s.handlers.handlers.lookup (normalizeNsp nsp) = some p := by
      rw [← Option.isSome_iff_exists, AList.lookup_isSome, AList.mem_keys]; exact hk
    have hheap : (s.getNamespace nsp).2.heap.length = s.heap.length := by
      rw [getNamespace_of_found hsome]
    refine ⟨by rw [hh2, hh]; exact hsz, by omega⟩

/-- Witness for C9: `OnConnect("/chat", 1)` on a new server, then `OnConnect("/chat", 2)`. -/
theorem register_twice_overwrites_witness :
    newServer.register .connect "/chat" (some 1)
      = some { handlers := newNamespaceHandlers.Set "/chat" (some 0),
               heap := [{ onConnect := some 1, onDisconnect := none, onError := none,
                          events := ∅ }] } ∧
    ∃ s2 a,
      Server.register
          { handlers := newNamespaceHandlers.Set "/chat" (some 0),
            heap := [{ onConnect := some 1, onDisconnect := none, onError := none,
                       events := ∅ }] }
          .connect "/chat" (some 2) = some s2 ∧
      (newServer.getNamespace "/chat").1 = some a ∧
      (Server.getNamespace
          { handlers := newNamespaceHandlers.Set "/chat" (some 0),
            heap := [{ onConnect := some 1, onDisconnect := none, onError := none,
                       events := ∅ }] } "/chat").1 = some a ∧
      s2.handlers = newNamespaceHandlers.Set "/chat" (some 0) ∧
      s2.heap.length = 1 ∧
      s2.callbackOf .connect (some a) = some 2 :=
  ⟨rfl, by
    obtain ⟨s2, a, h2, ha, ha1, hh, hl, _, hcb, _⟩ :=
      (register_twice_overwrites newServer .connect "/chat" (some 1) (some 2)).1
        { handlers := newNamespaceHandlers.Set "/chat" (some 0),
          heap := [{ onConnect := some 1, onDisconnect := none, onError := none,
                     events := ∅ }] } rfl
    exact ⟨s2, a, h2, ha, ha1, hh, hl, hcb⟩⟩

/-! ### Two goroutines racing in `getNamespace` -/

theorem getNamespaceStep_twice (s : Server) (nsp : String) :
    (s.getNamespaceStep (.start nsp)).2.getNamespaceStep (s.getNamespaceStep (.start nsp)).1
      = (.done (s.getNamespace nsp).1, (s.getNamespace nsp).2) := by
  cases hl : s.handlers.handlers.lookup (normalizeNsp nsp) with
  | some p =>
    rw [getNamespace_of_found hl]
    unfold normalizeNsp at hl
    simp [Server.getNamespaceStep, Get_eq_of_lookup_some hl]
  | none =>
    rw [getNamespace_of_missing hl]
    unfold normalizeNsp at hl
    simp [Server.getNamespaceStep, Get_eq_of_lookup_none hl, normalizeNsp]

theorem interleave_sequential (s : Server) (nsp other : String) :
    s.interleave (.start nsp) (.start other) [false, false, true, true]
      = (.done (s.getNamespace nsp).1,
         .done ((s.getNamespace nsp).2.getNamespace other).1,
         ((s.getNamespace nsp).2.getNamespace other).2) := by
  have h1 := getNamespaceStep_twice s nsp
  have h2 := getNamespaceStep_twice (s.getNamespace nsp).2 other
  simp only [Server.interleave]
  rw [h1]
  simp only
  rw [h2]

/-- C3 (the code at the failing interleaving): two goroutines call `getNamespace("/chat")` on a
new server and are scheduled `Get`, `Get`, `Set`, `Set`. Both lookups miss, no re-check is made
before inserting, and the calls return the two different handlers `0` and `1`; the registry
keeps only the second. -/
theorem getNamespace_race_returns_two_handlers :
    (newServer.interleave (.start "/chat") (.start "/chat") [false, true, false, true]).1
      = .done (some 0) ∧
    (newServer.interleave (.start "/chat") (.start "/chat") [false, true, false, true]).2.1
      = .done (some 1) ∧
    (newServer.interleave (.start "/chat") (.start "/chat")
      [false, true, false, true]).2.2.handlers.Get "/chat" = (some 1, true) ∧
    (newServer.interleave (.start "/chat") (.start "/chat")
      [false, true, false, true]).2.2.heap.length = 2 ∧
    (newServer.interleave (.start "/chat") (.start "/chat")
      [false, true, false, true]).2.2.handlers.size = 1 := by
  refine ⟨by decide, by decide, by decide, by decide, by decide⟩

/-! ### The mutex as explicit state -/

theorem locked_Set_free (handlers : AList (fun _ : String => HandlerPtr)) (nsp : String)
    (p : HandlerPtr) :
    Locked.namespaceHandlers.Set { mu := RWMutex.free, handlers := handlers } nsp p
      = .ok { mu := RWMutex.free, handlers := handlers.insert nsp p } := rfl

theorem locked_Set_under_read_lock (readers : Nat) (writer : Bool)
    (handlers : AList (fun _ : String => HandlerPtr)) (nsp : String) (p : HandlerPtr) :
    Locked.namespaceHandlers.Set
        { mu := { readers := readers + 1, writer := writer }, handlers := handlers } nsp p
      = .error .blocked := by
  simp only [Locked.namespaceHandlers.Set, RWMutex.Lock]
  rw [if_pos (Or.inr (by simp))]
  rfl

theorem locked_getNamespace_free (s : Locked.Server) (nsp : String)
    (hmu : s.handlers.mu = RWMutex.free) :
    s.getNamespace nsp
      = .ok ((s.erase.getNamespace nsp).1,
          { handlers :=
              { mu := RWMutex.free
                handlers := (s.erase.getNamespace nsp).2.handlers.handlers }
            heap := (s.erase.getNamespace nsp).2.heap }) := by
  rcases s with ⟨⟨mu, hs⟩, heap⟩
  simp only at hmu
  subst hmu
  have hg := locked_Get_eq 0 hs (if nsp = "/" then "" else nsp)
  cases hl : hs.lookup (normalizeNsp nsp) with
  | some p =>
    have hl2 : AList.lookup (normalizeNsp nsp)
        (Locked.Server.erase ⟨⟨RWMutex.free, hs⟩, heap⟩).handlers.handlers = some p := hl
    rw [getNamespace_of_found hl2]
    unfold normalizeNsp at hl
    simp only [namespaceHandlers.Get, hl] at hg
    simp only [Locked.Server.getNamespace, RWMutex.free, hg]
    rfl
  | none =>
    have hl2 : AList.lookup (normalizeNsp nsp)
        (Locked.Server.erase ⟨⟨RWMutex.free, hs⟩, heap⟩).handlers.handlers = none := hl
    rw [getNamespace_of_missing hl2]
    unfold normalizeNsp at hl
    simp only [namespaceHandlers.Get, hl] at hg
    simp only [Locked.Server.getNamespace, RWMutex.free, hg]
    rfl

theorem locked_storeField_free (s : Locked.Server) (o : Option Heap)
    (hmu : s.handlers.mu = RWMutex.free) :
    (∃ s1, Locked.storeField s o = .ok s1 ∧ s1.handlers.mu = RWMutex.free) ∨
      Locked.storeField s o = .error .nilDeref := by
  cases o with
  | none => exact Or.inr rfl
  | some heap => exact Or.inl ⟨_, rfl, hmu⟩

theorem locked_register_free (s : Locked.Server) (r : Locked.Registration)
    (hmu : s.handlers.mu = RWMutex.free) :
    (∃ s1, s.register r = .ok s1 ∧ s1.handlers.mu = RWMutex.free) ∨
      s.register r = .error .nilDeref := by
  cases r with
  | onConnect nsp f =>
    simp only [Locked.Server.register, locked_getNamespace_free s nsp hmu]
    exact locked_storeField_free _ _ rfl
  | onDisconnect nsp f =>
    simp only [Locked.Server.register, locked_getNamespace_free s nsp hmu]
    exact locked_storeField_free _ _ rfl
  | onError nsp f =>
    simp only [Locked.Server.register, locked_getNamespace_free s nsp hmu]
    exact locked_storeField_free _ _ rfl
  | onEvent nsp event f =>
    simp only [Locked.Server.register, locked_getNamespace_free s nsp hmu]
    exact locked_storeField_free _ _ rfl

theorem locked_runCallback_free (rs : List Locked.Registration) :
    ∀ s : Locked.Server, s.handlers.mu = RWMutex.free →
      (∃ s1, s.runCallback rs = .ok s1 ∧ s1.handlers.mu = RWMutex.free) ∨
        s.runCallback rs = .error .nilDeref := by
  induction rs with
  | nil => intro s hmu; exact Or.inl ⟨s, rfl, hmu⟩
  | cons r rs ih =>
    intro s hmu
    rcases locked_register_free s r hmu with ⟨s1, h1, hmu1⟩ | h1
    · simp only [Locked.Server.runCallback, h1]
      exact ih s1 hmu1
    · simp only [Locked.Server.runCallback, h1]
      exact Or.inr trivial

theorem locked_serveConn_log (body : Callback → List Locked.Registration)
    (newConn : engineioConn → Locked.Server → Option Error) (s : Locked.Server)
    (c : engineioConn) (hw : s.handlers.mu.writer = false) :
    ∀ inv ∈ (s.serveConn body newConn c).1, inv.mu = s.handlers.mu := by
  rcases s with ⟨⟨⟨readers, writer⟩, hs⟩, heap⟩
  simp only at hw
  subst hw
  intro inv hinv
  unfold Locked.Server.serveConn at hinv
  rw [locked_Get_eq readers hs ""] at hinv
  simp only at hinv
  split at hinv
  · split at hinv
    · simp at hinv
    · split at hinv
      · simp at hinv
      · split at hinv
        · simp at hinv
        · simp only [List.mem_singleton] at hinv
          rw [hinv]
  · simp at hinv

theorem locked_serveConn_free (body : Callback → List Locked.Registration)
    (newConn : engineioConn → Locked.Server → Option Error) (s : Locked.Server)
    (c : engineioConn) (hmu : s.handlers.mu = RWMutex.free) :
    (∃ s1, (s.serveConn body newConn c).2 = .ok s1 ∧ s1.handlers.mu = RWMutex.free) ∨
      (s.serveConn body newConn c).2 = .error .nilDeref := by
  rcases s with ⟨⟨mu, hs⟩, heap⟩
  simp only at hmu
  subst hmu
  unfold Locked.Server.serveConn
  rw [show (RWMutex.free) = { readers := 0, writer := false } from rfl,
    locked_Get_eq 0 hs ""]
  simp only
  split
  · split
    · exact Or.inl ⟨_, rfl, rfl⟩
    · split
      · exact Or.inl ⟨_, rfl, rfl⟩
      · split
        · exact Or.inl ⟨_, rfl, rfl⟩
        · exact locked_runCallback_free _ _ rfl
  · exact Or.inl ⟨_, rfl, rfl⟩

theorem serveConnHoldingLock_blocks :
    (Locked.Server.serveConnHoldingLock (fun _ => [.onConnect "/chat" (some 3)])
      (fun _ _ => some 9)
      { handlers := { mu := RWMutex.free, handlers := (∅ : AList _).insert "" (some 0) }
        heap := [{ onConnect := none, onDisconnect := none, onError := some 5, events := ∅ }] }
      7).2 = .error .blocked := rfl

/-- C10: in `serveConn` the read lock taken by `Get("")` is released before the root error
callback runs: whenever the lookup can take the read lock, every callback invocation sees the
mutex exactly as it was when `serveConn` started. When no lock is held at the start, none is
held at the invocation, a callback body made of registration calls never blocks (it runs to
the end, leaving the mutex free, unless a registration panics on a nil handler), and in
general a registration call made while no lock is held never blocks. -/
theorem serveConn_invokes_callback_lock_released (body : Callback → List Locked.Registration)
    (newConn : engineioConn → Locked.Server → Option Error) (s : Locked.Server)
    (c : engineioConn) :
    (s.handlers.mu.writer = false →
      ∀ inv ∈ (s.serveConn body newConn c).1, inv.mu = s.handlers.mu) ∧
    (s.handlers.mu = RWMutex.free →
      (∀ inv ∈ (s.serveConn body newConn c).1, inv.mu = RWMutex.free) ∧
      (s.serveConn body newConn c).2 ≠ .error .blocked ∧
      ((∃ s1, (s.serveConn body newConn c).2 = .ok s1 ∧ s1.handlers.mu = RWMutex.free) ∨
        (s.serveConn body newConn c).2 = .error .nilDeref) ∧
      (∀ r : Locked.Registration, s.register r ≠ .error .blocked)) := by
  refine ⟨locked_serveConn_log body newConn s c, fun hmu => ⟨?_, ?_, ?_, ?_⟩⟩
  · intro inv hinv
    rw [locked_serveConn_log body newConn s c (by rw [hmu]; rfl) inv hinv, hmu]
  · rcases locked_serveConn_free body newConn s c hmu with ⟨s1, h1, _⟩ | h1 <;>
      rw [h1] <;> simp
  · exact locked_serveConn_free body newConn s c hmu
  · intro r
    rcases locked_register_free s r hmu with ⟨s1, h1, _⟩ | h1 <;> rw [h1] <;> simp

/-- Witness for C10: the root error callback `5` registers a connect callback for `"/chat"`
and clears the root error callback when it runs; binding fails with error `9`. -/
theorem serveConn_invokes_callback_lock_released_witness :
    (({ handlers := { mu := RWMutex.free, handlers := (∅ : AList _).insert "" (some 0) }
        heap := [{ onConnect := none, onDisconnect := none, onError := some 5, events := ∅ }] }
      : Locked.Server).handlers.mu = RWMutex.free) ∧
    (Locked.Server.serveConn (fun _ => [.onConnect "/chat" (some 3), .onError "/" none])
      (fun _ _ => some 9)
      { handlers := { mu := RWMutex.free, handlers := (∅ : AList _).insert "" (some 0) }
        heap := [{ onConnect := none, onDisconnect := none, onError := some 5, events := ∅ }] }
      7).1 = [{ callback := 5, arg := 9, mu := RWMutex.free }] ∧
    (∀ inv ∈ (Locked.Server.serveConn
      (fun _ => [.onConnect "/chat" (some 3), .onError "/" none]) (fun _ _ => some 9)
      { handlers := { mu := RWMutex.free, handlers := (∅ : AList _).insert "" (some 0) }
        heap := [{ onConnect := none, onDisconnect := none, onError := some 5, events := ∅ }] }
      7).1, inv.mu = RWMutex.free) ∧
    (Locked.Server.serveConn (fun _ => [.onConnect "/chat" (some 3), .onError "/" none])
      (fun _ _ => some 9)
      { handlers := { mu := RWMutex.free, handlers := (∅ : AList _).insert "" (some 0) }
        heap := [{ onConnect := none, onDisconnect := none, onError := some 5, events := ∅ }] }
      7).2 ≠ .error .blocked :=
  ⟨rfl, by decide,
   ((serveConn_invokes_callback_lock_released
      (fun _ => [.onConnect "/chat" (some 3), .onError "/" none]) (fun _ _ => some 9)
      { handlers := { mu := RWMutex.free, handlers := (∅ : AList _).insert "" (some 0) }
        heap := [{ onConnect := none, onDisconnect := none, onError := some 5, events := ∅ }] }
      7).2 rfl).1,
   ((serveConn_invokes_callback_lock_released
      (fun _ => [.onConnect "/chat" (some 3), .onError "/" none]) (fun _ _ => some 9)
      { handlers := { mu := RWMutex.free, handlers := (∅ : AList _).insert "" (some 0) }
        heap := [{ onConnect := none, onDisconnect := none, onError := some 5, events := ∅ }] }
      7).2 rfl).2.1⟩

end GoSocket
